import Mathlib

/-!
Shallow embedding of the Deep-Research-Agent repository
(`Researcher.py`, `SubGraphs/AnalystsGraph.py`, `SubGraphs/InterviewGraph.py`).

Python strings are modelled as Lean `String`; Python string primitives
(`in`, `startswith`, `strip`, `split`, negative indexing, truthiness) are
given explicit executable definitions over `String.data` below, each one a
direct transcription of the CPython semantics actually exercised by the code.
Chat messages (`langchain` `AIMessage` / `HumanMessage` / `SystemMessage`)
are records carrying their class, optional `name` attribute and `content`.
LLM and network calls are not modelled: nodes that merely call a hosted model
are abstracted over the returned text, and the two search calls wrapped in
`try/except` are given an `Except` parameter standing for the outcome of the
library call inside the `try` block.
-/

/-- The `langchain` message class of a message: `AIMessage`, `HumanMessage`
or `SystemMessage`. `isinstance(m, AIMessage)` becomes `type = MsgType.ai`. -/
inductive MsgType
  | ai
  | human
  | system
deriving DecidableEq

/-- A chat message: its class, optional `name` attribute (Python `None` versus
a string) and text content. -/
structure Message where
  type : MsgType
  name : Option String
  content : String
deriving DecidableEq

/-- Character-list prefix test: `listStartsWith pre l` is true when `l`
begins with `pre`. -/
def listStartsWith : List Char → List Char → Bool
  | [], _ => true
  | _ :: _, [] => false
  | a :: as, b :: bs => a == b && listStartsWith as bs

/-- Python substring test `needle in hay` on character lists: true when
`needle` occurs contiguously in `hay`. -/
def containsSub (needle : List Char) : List Char → Bool
  | [] => needle.isEmpty
  | c :: rest => listStartsWith needle (c :: rest) || containsSub needle rest

/-- Python `sub in s` on strings. -/
def pyContains (s sub : String) : Bool :=
  containsSub sub.data s.data

/-- Python `s.startswith(pre)`. -/
def pyStartsWith (s pre : String) : Bool :=
  listStartsWith pre.data s.data

/-- Python truthiness of an optional string: `None` and `""` are falsy,
every other string is truthy. -/
def pyTruthy : Option String → Bool
  | none => false
  | some s => !(s == "")

/-- Python negative indexing `l[-2]`: defined only when the list has at least
two elements, otherwise an `IndexError` (modelled as `none`). -/
def pyGetNeg2 (l : List α) : Option α :=
  if l.length ≥ 2 then l.get? (l.length - 2) else none

/-- The count from `route_messages` (`InterviewGraph.py` lines 43-45): the
number of messages that are `AIMessage`s whose `name` equals `name`. -/
def numExpertResponses (messages : List Message) (name : String) : Nat :=
  (messages.filter (fun m => m.type == MsgType.ai && m.name == some name)).length

/-- The two branch labels `route_messages` can return. -/
inductive Route
  | save_interview
  | ask_question
deriving DecidableEq

/-- Embedding of `route_messages` (`InterviewGraph.py` lines 29-57).  Ends the interview
once the expert has answered at least `max_num_turns` times, otherwise looks
at `messages[-2]` (the last question) for the farewell phrase.  The access
`messages[-2]` raises `IndexError` when fewer than two messages are present;
the whole function is therefore modelled in `Option`, with `none` standing
for the raised exception. -/
def route_messages (messages : List Message) (max_num_turns : Nat)
    (name : String) : Option Route :=
  let num_responses := numExpertResponses messages name
  if num_responses ≥ max_num_turns then
    some Route.save_interview
  else
    match pyGetNeg2 messages with
    | none => none
    | some last_question =>
      if pyContains last_question.content "Thank you so much for your help" then
        some Route.save_interview
      else
        some Route.ask_question

/-- The `Analyst` pydantic model (`AnalystsGraph.py` lines 20-35). -/
structure Analyst where
  affiliation : String
  name : String
  role : String
  description : String
deriving DecidableEq

/-- The `persona` property of `Analyst` (`AnalystsGraph.py` lines 33-35). -/
def Analyst.persona (a : Analyst) : String :=
  "Name: " ++ a.name ++ "\nRole: " ++ a.role ++ "\nAffiliation: " ++
    a.affiliation ++ "\nDescription: " ++ a.description ++ "\n"

/-- The two branch labels `AnalystGraph.should_continue` can return:
`create_analysts` loops back, `endNode` is the graph's `END` sentinel. -/
inductive AnalystRoute
  | create_analysts
  | endNode
deriving DecidableEq

namespace AnalystGraph

/-- Embedding of `AnalystGraph.should_continue` (`AnalystsGraph.py` lines 95-113).  The
`try/except KeyError` read of `state['human_analyst_feedback']` is modelled
by the `Option` parameter (`none` for a missing key, which Python turns into
`None`).  The `state['messages'].append` side effect does not affect the
returned branch and is not modelled. -/
def should_continue (human_analyst_feedback : Option String) : AnalystRoute :=
  if pyTruthy human_analyst_feedback &&
      !(human_analyst_feedback == some "continue") then
    AnalystRoute.create_analysts
  else
    AnalystRoute.endNode

end AnalystGraph

/-- A `langgraph` `Send` packet as built by `initiate_all_interviews`
(`Researcher.py` lines 63-67): target node plus the `analyst` and `messages`
keys of the payload dict. -/
structure Send where
  node : String
  analyst : Analyst
  messages : List Message
deriving DecidableEq

/-- The value returned by `initiate_all_interviews`: either the literal
branch `"create_analysts"` or a list of `Send` packets. -/
inductive ResearchRoute
  | create_analysts
  | sends (sends : List Send)
deriving DecidableEq

/-- Embedding of `initiate_all_interviews` (`Researcher.py` lines 40-67).  The
`try/except` read of `state['human_analyst_feedback']` is the `Option`
parameter; any truthy feedback routes back to `create_analysts`, otherwise
one `Send` per analyst targets `conduct_interview` with a single opening
human message naming the topic. -/
def initiate_all_interviews (human_analyst_feedback : Option String)
    (topic : String) (analysts : List Analyst) : ResearchRoute :=
  if pyTruthy human_analyst_feedback then
    ResearchRoute.create_analysts
  else
    ResearchRoute.sends (analysts.map (fun analyst =>
      { node := "conduct_interview"
        analyst := analyst
        messages := [{ type := MsgType.human
                       name := none
                       content := "So you said you were writing an article on "
                         ++ topic ++ "?" }] }))

/-- Python `sep.join(parts)`. -/
def pyJoin (sep : String) : List String → String
  | [] => ""
  | [x] => x
  | x :: y :: rest => x ++ sep ++ pyJoin sep (y :: rest)

/-- A Tavily web search result dict, with its `url` and `content` keys. -/
structure WebDoc where
  url : String
  content : String
deriving DecidableEq

/-- A `WikipediaLoader` document: `metadata["source"]`, the optional
`metadata["page"]`, and `page_content`. -/
structure WikiDoc where
  source : String
  page : Option String
  page_content : String
deriving DecidableEq

/-- The state update returned by the two search nodes: a dict whose only key
is `context`, holding the list of formatted source strings. -/
structure ContextUpdate where
  context : List String
deriving DecidableEq

namespace InterviewAgent

/-- Embedding of `InterviewAgent.search_web` (`InterviewGraph.py` lines 89-117).  The
outcome of the Tavily call inside the `try` block is the `Except` parameter:
`ok` carries the result dicts, `error` the message of a raised exception.
The query-generation LLM call is outside the `try` and is not modelled. -/
def search_web (search_docs : Except String (List WebDoc)) : ContextUpdate :=
  match search_docs with
  | Except.ok docs =>
    { context := [pyJoin "\n\n---\n\n" (docs.map (fun doc =>
        "<Document href=\"" ++ doc.url ++ "\"/>\n" ++ doc.content
          ++ "\n</Document>"))] }
  | Except.error _ => { context := [""] }

/-- Embedding of `InterviewAgent.search_wikipedia` (`InterviewGraph.py` lines 119-148),
modelled like `search_web`; `metadata.get("page", "")` is `Option.getD`. -/
def search_wikipedia (search_docs : Except String (List WikiDoc)) : ContextUpdate :=
  match search_docs with
  | Except.ok docs =>
    { context := [pyJoin "\n\n---\n\n" (docs.map (fun doc =>
        "<Document source=\"" ++ doc.source ++ "\" page=\""
          ++ doc.page.getD "" ++ "\"/>\n" ++ doc.page_content
          ++ "\n</Document>"))] }
  | Except.error _ => { context := [""] }

end InterviewAgent

/-- Python `s.strip(chars)`: removes from both ends of `s` every character
that occurs in `chars` (a character set, not a literal prefix or suffix). -/
def pyStrip (s chars : String) : String :=
  String.mk (List.rdropWhile (fun c => chars.data.contains c)
    (s.data.dropWhile (fun c => chars.data.contains c)))

/-- Python `s.split(sep)` on character lists (non-empty `sep`), by a
left-to-right scan over non-overlapping occurrences; `fuel` bounds the
recursion and is instantiated with the length of the scanned list. -/
def pySplitAux (sep : List Char) : Nat → List Char → List (List Char)
  | _, [] => [[]]
  | 0, l => [l]
  | fuel + 1, c :: rest =>
    if listStartsWith sep (c :: rest) then
      [] :: pySplitAux sep fuel ((c :: rest).drop sep.length)
    else
      match pySplitAux sep fuel rest with
      | [] => [[c]]
      | h :: t => (c :: h) :: t

/-- Python `s.split(sep)` for a non-empty separator. -/
def pySplit (s sep : String) : List String :=
  (pySplitAux sep.data s.data.length s.data).map String.mk

/-- The number of non-overlapping occurrences of `sep` found by the same
left-to-right scan as `pySplitAux` (Python `s.count(sep)`). -/
def pyCountAux (sep : List Char) : Nat → List Char → Nat
  | _, [] => 0
  | 0, _ => 0
  | fuel + 1, c :: rest =>
    if listStartsWith sep (c :: rest) then
      pyCountAux sep fuel ((c :: rest).drop sep.length) + 1
    else
      pyCountAux sep fuel rest

/-- Python `s.count(sep)` for a non-empty separator. -/
def pyCount (s sep : String) : Nat :=
  pyCountAux sep.data s.data.length s.data

/-- Joining a list of character lists with a separator (inverse of the
split scan). -/
def joinWithSep (sep : List Char) : List (List Char) → List Char
  | [] => []
  | [x] => x
  | x :: y :: rest => x ++ sep ++ joinWithSep sep (y :: rest)

/-- The distinct characters of the string `'## Insights'`: the character set
that Python `str.strip('## Insights')` removes from both ends. -/
def insightsCharSet : List Char :=
  ['#', ' ', 'I', 'n', 's', 'i', 'g', 'h', 't']

/-- The cleanup step at the top of `finalize_report` (`Researcher.py` lines
150-151): a body starting with `'## Insights'` is passed through Python
`str.strip('## Insights')`. -/
def cleanInsights (content : String) : String :=
  if pyStartsWith content "## Insights" then pyStrip content "## Insights"
  else content

namespace ResearchAgent

/-- Embedding of `ResearchAgent.finalize_report` (`Researcher.py` lines 139-166),
restricted to the `final_report` string it builds from the `introduction`,
`content` and `conclusion` fields of the state.  The `try/except ValueError`
around `content, sources = content.split("\n## Sources\n")` succeeds exactly
when the split yields two parts, and otherwise leaves `content` unchanged
with `sources = None`. -/
def finalize_report (introduction content conclusion : String) : String :=
  let content1 := cleanInsights content
  let split_result : String × Option String :=
    if pyContains content1 "## Sources" then
      match pySplit content1 "\n## Sources\n" with
      | [c, s] => (c, some s)
      | _ => (content1, none)
    else (content1, none)
  let final_report := introduction ++ "\n\n---\n\n" ++ split_result.1
    ++ "\n\n---\n\n" ++ conclusion
  match split_result.2 with
  | some sources => final_report ++ "\n\n## Sources\n" ++ sources
  | none => final_report

end ResearchAgent

/-- The node currently executing in the compiled interview subgraph
(`InterviewGraph.py` lines 228-235); the two parallel search nodes are one
`search` phase since neither touches `messages`, and `saved` covers the
terminal `save_interview → write_section → END` tail. -/
inductive IPhase
  | ask
  | search
  | answer
  | route
  | saved
deriving DecidableEq

/-- One step of the interview loop on (phase, messages) states, following
the edges of `InterviewAgent.build_graph`: `ask_question` appends the
generated question (an LLM message whose `name` attribute is unset),
the search fan-out only adds `context`, `answer_question` appends exactly
one `AIMessage` renamed `"expert"` (`InterviewGraph.py` line 169), and the
conditional edge follows `route_messages`.  Message contents are arbitrary,
abstracting the hosted model. -/
inductive InterviewStep (max_num_turns : Nat) :
    IPhase × List Message → IPhase × List Message → Prop
  | ask_question (msgs : List Message) (q : Message) (hq : q.name = none) :
      InterviewStep max_num_turns (IPhase.ask, msgs) (IPhase.search, msgs ++ [q])
  | search_docs (msgs : List Message) :
      InterviewStep max_num_turns (IPhase.search, msgs) (IPhase.answer, msgs)
  | answer_question (msgs : List Message) (a : Message)
      (ht : a.type = MsgType.ai) (hn : a.name = some "expert") :
      InterviewStep max_num_turns (IPhase.answer, msgs) (IPhase.route, msgs ++ [a])
  | route_ask (msgs : List Message)
      (h : route_messages msgs max_num_turns "expert" = some Route.ask_question) :
      InterviewStep max_num_turns (IPhase.route, msgs) (IPhase.ask, msgs)
  | route_save (msgs : List Message)
      (h : route_messages msgs max_num_turns "expert" = some Route.save_interview) :
      InterviewStep max_num_turns (IPhase.route, msgs) (IPhase.saved, msgs)

/-- Invariant of the interview loop: the expert-answer count never exceeds
the cap, and is strictly below it before the next answer is appended. -/
def InterviewInv (max_num_turns : Nat) (s : IPhase × List Message) : Prop :=
  numExpertResponses s.2 "expert" ≤ max_num_turns ∧
  (s.1 = IPhase.ask ∨ s.1 = IPhase.search ∨ s.1 = IPhase.answer →
    numExpertResponses s.2 "expert" < max_num_turns)

/-!
Theorems.
-/

/-- A list starts with itself followed by anything. -/
theorem listStartsWith_append_self (n t : List Char) :
    listStartsWith n (n ++ t) = true := by
  induction n with
  | nil => rfl
  | cons c rest ih => simp [listStartsWith, ih]

/-- The empty needle occurs in every list. -/
theorem containsSub_nil (l : List Char) : containsSub [] l = true := by
  cases l <;> simp [containsSub, listStartsWith]

/-- A needle occurs in any list that contains it contiguously. -/
theorem containsSub_of_append (n pre suf : List Char) :
    containsSub n (pre ++ n ++ suf) = true := by
  induction pre with
  | nil =>
    cases n with
    | nil => simpa using containsSub_nil suf
    | cons c rest =>
      have h1 : ([] : List Char) ++ (c :: rest) ++ suf = c :: (rest ++ suf) := by
        simp
      rw [h1]
      show (listStartsWith (c :: rest) (c :: (rest ++ suf)) ||
        containsSub (c :: rest) (rest ++ suf)) = true
      rw [← List.cons_append, listStartsWith_append_self, Bool.true_or]
  | cons p ps ih =>
    have h1 : (p :: ps) ++ n ++ suf = p :: (ps ++ n ++ suf) := by simp
    rw [h1]
    show (listStartsWith n (p :: (ps ++ n ++ suf)) ||
      containsSub n (ps ++ n ++ suf)) = true
    rw [ih, Bool.or_true]

/-- C1: whenever the number of `AIMessage`s named `"expert"` is at least the
configured `max_num_turns`, `route_messages` returns the terminal branch
`save_interview`. -/
theorem route_messages_max_turns_terminates
    (messages : List Message) (max_num_turns : Nat)
    (h : max_num_turns ≤ numExpertResponses messages "expert") :
    route_messages messages max_num_turns "expert" = some Route.save_interview := by
  unfold route_messages
  simp [h]

/-- Witness for C1: two expert answers against a maximum of two turns route
to `save_interview`. -/
theorem route_messages_max_turns_terminates_witness :
    route_messages
      [⟨MsgType.ai, some "expert", "a1"⟩, ⟨MsgType.ai, some "expert", "a2"⟩]
      2 "expert" = some Route.save_interview :=
  route_messages_max_turns_terminates _ 2 (by decide)

/-- C8: the derived persona string of an analyst is the concatenation of the
four record fields as the labeled lines `Name:`, `Role:`, `Affiliation:`,
`Description:`, in that order, each line terminated by a newline. -/
theorem Analyst.persona_format (a : Analyst) :
    a.persona =
      ("Name: " ++ a.name ++ "\n") ++ ("Role: " ++ a.role ++ "\n") ++
        ("Affiliation: " ++ a.affiliation ++ "\n") ++
        ("Description: " ++ a.description ++ "\n") := by
  apply String.ext
  simp only [Analyst.persona, String.data_append, List.append_assoc]
  rfl

/-- C9: `route_messages` is total exactly on states where the transcript has
at least two messages or the expert-answer count has already reached
`max_num_turns`; below the cap with fewer than two messages, the access
`messages[-2]` is out of bounds and routing fails (returns `none`). -/
theorem route_messages_totality
    (messages : List Message) (max_num_turns : Nat) :
    (numExpertResponses messages "expert" < max_num_turns →
      messages.length < 2 →
      route_messages messages max_num_turns "expert" = none) ∧
    (2 ≤ messages.length ∨ max_num_turns ≤ numExpertResponses messages "expert" →
      (route_messages messages max_num_turns "expert").isSome) := by
  constructor
  · intro hlt hlen
    unfold route_messages pyGetNeg2
    simp [Nat.not_le.mpr hlt, Nat.not_le.mpr hlen]
  · intro h
    unfold route_messages pyGetNeg2
    by_cases hge : max_num_turns ≤ numExpertResponses messages "expert"
    · simp [hge]
    · have hlen : 2 ≤ messages.length := h.resolve_right hge
      have hidx : messages.length - 2 < messages.length := by omega
      obtain ⟨m, hm⟩ : ∃ m, messages.get? (messages.length - 2) = some m :=
        ⟨_, List.get?_eq_get hidx⟩
      simp only [hge, if_false, ge_iff_le, hlen, if_true, hm]
      split <;> rfl

/-- Witness for C9: on a single-message transcript below the cap, routing
raises (returns `none`); on a two-message transcript it succeeds. -/
theorem route_messages_totality_witness :
    route_messages [⟨MsgType.human, none, "q"⟩] 1 "expert" = none ∧
    (route_messages [⟨MsgType.human, none, "q"⟩, ⟨MsgType.ai, some "expert", "a"⟩]
        2 "expert").isSome :=
  ⟨(route_messages_totality [⟨MsgType.human, none, "q"⟩] 1).1 (by decide) (by decide),
   (route_messages_totality
      [⟨MsgType.human, none, "q"⟩, ⟨MsgType.ai, some "expert", "a"⟩] 2).2
      (Or.inl (by decide))⟩

/-- C2 counterexample: with feedback equal to the literal `"continue"`,
`initiate_all_interviews` returns the loop-back branch `create_analysts`,
although the claimed condition (feedback non-empty and different from
`"continue"`) is false there. -/
theorem initiate_all_interviews_continue_cex :
    ¬ (initiate_all_interviews (some "continue") "AI" [] =
          ResearchRoute.create_analysts ↔
        (("continue" : String) ≠ "" ∧ ("continue" : String) ≠ "continue")) := by
  decide

/-- C2 amended: `should_continue` loops back to `create_analysts` exactly
when the feedback is non-empty and different from `"continue"`, while
`initiate_all_interviews` loops back exactly when the feedback is truthy
(non-empty), regardless of whether it equals `"continue"`. -/
theorem feedback_routing_amended (feedback : Option String) :
    (AnalystGraph.should_continue feedback = AnalystRoute.create_analysts ↔
      pyTruthy feedback = true ∧ feedback ≠ some "continue") ∧
    (∀ topic analysts,
      initiate_all_interviews feedback topic analysts =
          ResearchRoute.create_analysts ↔
        pyTruthy feedback = true) := by
  constructor
  · cases feedback with
    | none => simp [AnalystGraph.should_continue, pyTruthy]
    | some s =>
      by_cases h1 : s = "" <;> by_cases h2 : s = "continue" <;>
        simp [AnalystGraph.should_continue, pyTruthy, h1, h2]
  · intro topic analysts
    cases feedback with
    | none => simp [initiate_all_interviews, pyTruthy]
    | some s =>
      by_cases h1 : s = "" <;>
        simp [initiate_all_interviews, pyTruthy, h1]

/-- C3: when the library call inside the `try` block of `search_web` or
`search_wikipedia` raises, the node swallows the exception and returns the
update whose only content is `context = [""]`. -/
theorem search_error_fallback (e : String) :
    InterviewAgent.search_web (Except.error e) = { context := [""] } ∧
    InterviewAgent.search_wikipedia (Except.error e) = { context := [""] } :=
  ⟨rfl, rfl⟩

/-- C6: with missing or falsy human feedback, `initiate_all_interviews`
fans out one `Send` per analyst, in list order, each targeting
`conduct_interview` and carrying exactly one human message that mentions
the topic. -/
theorem initiate_all_interviews_fanout (feedback : Option String)
    (topic : String) (analysts : List Analyst)
    (h : pyTruthy feedback = false) :
    ∃ sends : List Send,
      initiate_all_interviews feedback topic analysts =
        ResearchRoute.sends sends ∧
      sends.length = analysts.length ∧
      ∀ i a, analysts.get? i = some a →
        ∃ m : Message,
          sends.get? i = some { node := "conduct_interview",
                                analyst := a, messages := [m] } ∧
          m.type = MsgType.human ∧
          pyContains m.content topic = true := by
  refine ⟨analysts.map (fun analyst =>
      { node := "conduct_interview"
        analyst := analyst
        messages := [{ type := MsgType.human
                       name := none
                       content := "So you said you were writing an article on "
                         ++ topic ++ "?" }] }), ?_, by simp, ?_⟩
  · simp [initiate_all_interviews, h]
  · intro i a ha
    refine ⟨⟨MsgType.human, none,
      "So you said you were writing an article on " ++ topic ++ "?"⟩, ?_, rfl, ?_⟩
    · simp only [List.get?_eq_getElem?, List.getElem?_map] at ha ⊢
      simp [ha]
    · show containsSub topic.data
        ("So you said you were writing an article on " ++ topic ++ "?").data = true
      rw [String.data_append, String.data_append]
      exact containsSub_of_append _ _ _

/-- Witness for C6: two analysts and absent feedback produce two `Send`
packets in order, each with one topic-mentioning human message. -/
theorem initiate_all_interviews_fanout_witness :
    ∃ sends : List Send,
      initiate_all_interviews none "AI"
          [⟨"U", "Ada", "r1", "d1"⟩, ⟨"V", "Bob", "r2", "d2"⟩] =
        ResearchRoute.sends sends ∧
      sends.length = 2 ∧
      ∀ i a, ([⟨"U", "Ada", "r1", "d1"⟩,
               (⟨"V", "Bob", "r2", "d2"⟩ : Analyst)].get? i) = some a →
        ∃ m : Message,
          sends.get? i = some { node := "conduct_interview",
                                analyst := a, messages := [m] } ∧
          m.type = MsgType.human ∧
          pyContains m.content "AI" = true :=
  initiate_all_interviews_fanout none "AI"
    [⟨"U", "Ada", "r1", "d1"⟩, ⟨"V", "Bob", "r2", "d2"⟩] rfl

/-- C4 counterexample: below the cap, the farewell phrase appears in the
transcript (in its first message) yet `route_messages` returns
`ask_question`, because the code only inspects `messages[-2]`. -/
theorem route_messages_transcript_cex :
    numExpertResponses
        [⟨MsgType.human, none, "Thank you so much for your help"⟩,
         ⟨MsgType.human, none, "One more question"⟩,
         ⟨MsgType.ai, some "expert", "An answer"⟩] "expert" < 5 ∧
    (∃ m ∈ [⟨MsgType.human, none, "Thank you so much for your help"⟩,
            ⟨MsgType.human, none, "One more question"⟩,
            (⟨MsgType.ai, some "expert", "An answer"⟩ : Message)],
      pyContains m.content "Thank you so much for your help" = true) ∧
    route_messages
        [⟨MsgType.human, none, "Thank you so much for your help"⟩,
         ⟨MsgType.human, none, "One more question"⟩,
         ⟨MsgType.ai, some "expert", "An answer"⟩] 5 "expert" =
      some Route.ask_question := by
  decide

/-- Python `l[-2]` on a list ending in two known elements. -/
theorem pyGetNeg2_append_two (front : List α) (q a : α) :
    pyGetNeg2 (front ++ [q, a]) = some q := by
  unfold pyGetNeg2
  have hlen : (front ++ [q, a]).length = front.length + 2 := by simp
  rw [hlen, if_pos (by omega), Nat.add_sub_cancel, List.get?_eq_getElem?,
    List.getElem?_append_right (Nat.le_refl _), Nat.sub_self]
  rfl

/-- C4 amended: below the cap, `route_messages` returns `save_interview`
exactly when the farewell phrase appears in `messages[-2]` (the last
question asked), and `ask_question` otherwise. -/
theorem route_messages_last_question_farewell
    (front : List Message) (q a : Message) (max_num_turns : Nat)
    (h : numExpertResponses (front ++ [q, a]) "expert" < max_num_turns) :
    route_messages (front ++ [q, a]) max_num_turns "expert" =
      if pyContains q.content "Thank you so much for your help" then
        some Route.save_interview
      else some Route.ask_question := by
  have hne : ¬ numExpertResponses (front ++ [q, a]) "expert" ≥ max_num_turns :=
    Nat.not_le.mpr h
  unfold route_messages
  simp only [hne, if_false, pyGetNeg2_append_two]

/-- Witness for C4 (amended): a farewell in the last question ends the
interview; an ordinary last question continues it. -/
theorem route_messages_last_question_farewell_witness :
    route_messages
        [⟨MsgType.human, none, "Well, thank you so much for your help!"⟩,
         ⟨MsgType.ai, none, "Thank you so much for your help"⟩,
         ⟨MsgType.ai, some "expert", "Bye"⟩] 2 "expert" =
      some Route.save_interview ∧
    route_messages
        [⟨MsgType.ai, none, "What about safety?"⟩,
         ⟨MsgType.ai, some "expert", "Answer"⟩] 2 "expert" =
      some Route.ask_question := by
  constructor
  · have := route_messages_last_question_farewell
      [⟨MsgType.human, none, "Well, thank you so much for your help!"⟩]
      ⟨MsgType.ai, none, "Thank you so much for your help"⟩
      ⟨MsgType.ai, some "expert", "Bye"⟩ 2 (by decide)
    rw [List.singleton_append] at this
    rw [this]
    decide
  · have := route_messages_last_question_farewell []
      ⟨MsgType.ai, none, "What about safety?"⟩
      ⟨MsgType.ai, some "expert", "Answer"⟩ 2 (by decide)
    rw [List.nil_append] at this
    rw [this]
    decide

/-- Appending a message that is not an expert-named `AIMessage` leaves the
expert-answer count unchanged. -/
theorem numExpertResponses_append_other (l : List Message) (m : Message)
    (hm : (m.type == MsgType.ai && m.name == some "expert") = false) :
    numExpertResponses (l ++ [m]) "expert" = numExpertResponses l "expert" := by
  unfold numExpertResponses
  rw [List.filter_append]
  simp [List.filter, hm]

/-- Appending an expert-named `AIMessage` raises the expert-answer count by
one. -/
theorem numExpertResponses_append_expert (l : List Message) (m : Message)
    (ht : m.type = MsgType.ai) (hn : m.name = some "expert") :
    numExpertResponses (l ++ [m]) "expert" = numExpertResponses l "expert" + 1 := by
  unfold numExpertResponses
  rw [List.filter_append]
  simp [List.filter, ht, hn]

/-- The loop-back branch of `route_messages` is only reachable strictly
below the cap. -/
theorem route_messages_ask_lt (msgs : List Message) (max_num_turns : Nat)
    (h : route_messages msgs max_num_turns "expert" = some Route.ask_question) :
    numExpertResponses msgs "expert" < max_num_turns := by
  by_contra hge
  rw [Nat.not_lt] at hge
  unfold route_messages at h
  simp [hge] at h

/-- Each interview step preserves the turn-cap invariant. -/
theorem interviewStep_preserves_inv (max_num_turns : Nat)
    (s t : IPhase × List Message) (hstep : InterviewStep max_num_turns s t)
    (hinv : InterviewInv max_num_turns s) : InterviewInv max_num_turns t := by
  cases hstep with
  | ask_question msgs q hq =>
    have hlt : numExpertResponses msgs "expert" < max_num_turns :=
      hinv.2 (Or.inl rfl)
    have hnum := numExpertResponses_append_other msgs q (by simp [hq])
    refine ⟨?_, fun _ => ?_⟩
    · show numExpertResponses (msgs ++ [q]) "expert" ≤ max_num_turns
      rw [hnum]; omega
    · show numExpertResponses (msgs ++ [q]) "expert" < max_num_turns
      rw [hnum]; exact hlt
  | search_docs msgs =>
    exact ⟨hinv.1, fun _ => hinv.2 (Or.inr (Or.inl rfl))⟩
  | answer_question msgs a ht hn =>
    have hlt : numExpertResponses msgs "expert" < max_num_turns :=
      hinv.2 (Or.inr (Or.inr rfl))
    have hnum := numExpertResponses_append_expert msgs a ht hn
    refine ⟨?_, fun hc => ?_⟩
    · show numExpertResponses (msgs ++ [a]) "expert" ≤ max_num_turns
      rw [hnum]; omega
    · rcases hc with hc | hc | hc <;> simp at hc
  | route_ask msgs h =>
    exact ⟨hinv.1, fun _ => route_messages_ask_lt msgs max_num_turns h⟩
  | route_save msgs h =>
    refine ⟨hinv.1, fun hc => ?_⟩
    rcases hc with hc | hc | hc <;> simp at hc

/-- C7: along every run of the interview loop started at `ask_question`
with no expert answers yet and a positive cap, the number of expert answers
in `messages` never exceeds `max_num_turns`. -/
theorem interview_expert_answers_bounded (max_num_turns : Nat)
    (hmax : 1 ≤ max_num_turns) (msgs0 : List Message)
    (h0 : numExpertResponses msgs0 "expert" = 0)
    (p : IPhase) (msgs : List Message)
    (hreach : Relation.ReflTransGen (InterviewStep max_num_turns)
      (IPhase.ask, msgs0) (p, msgs)) :
    numExpertResponses msgs "expert" ≤ max_num_turns := by
  suffices h : ∀ s, Relation.ReflTransGen (InterviewStep max_num_turns)
      (IPhase.ask, msgs0) s → InterviewInv max_num_turns s by
    exact (h (p, msgs) hreach).1
  intro s hs
  induction hs with
  | refl =>
    refine ⟨?_, fun _ => ?_⟩
    · show numExpertResponses msgs0 "expert" ≤ max_num_turns
      omega
    · show numExpertResponses msgs0 "expert" < max_num_turns
      omega
  | tail hsteps hstep ih => exact interviewStep_preserves_inv _ _ _ hstep ih

/-- Witness for C7: the initial empty transcript with cap one is reachable
and satisfies the bound. -/
theorem interview_expert_answers_bounded_witness :
    numExpertResponses [] "expert" ≤ 1 :=
  interview_expert_answers_bounded 1 (Nat.le_refl 1) [] rfl IPhase.ask []
    Relation.ReflTransGen.refl

/-- Splitting a list into the part kept and the part dropped from the right. -/
theorem rdropWhile_append_rtakeWhile (p : Char → Bool) (l : List Char) :
    List.rdropWhile p l ++ List.rtakeWhile p l = l := by
  unfold List.rdropWhile List.rtakeWhile
  rw [← List.reverse_append, List.takeWhile_append_dropWhile, List.reverse_reverse]

/-- The head surviving `dropWhile` does not satisfy the predicate. -/
theorem dropWhile_head_not (p : Char → Bool) (l : List Char) (c : Char)
    (h : (List.dropWhile p l).head? = some c) : p c = false := by
  induction l with
  | nil => simp at h
  | cons x xs ih =>
    rw [List.dropWhile_cons] at h
    by_cases hp : p x = true
    · rw [if_pos hp] at h
      exact ih h
    · rw [if_neg hp] at h
      simp only [List.head?_cons, Option.some.injEq] at h
      rw [h, Bool.not_eq_true] at hp
      exact hp

/-- Pruning with `rdropWhile` keeps the head of the list. -/
theorem rdropWhile_head? (p : Char → Bool) (l : List Char) (c : Char)
    (h : (List.rdropWhile p l).head? = some c) : l.head? = some c := by
  obtain ⟨t, ht⟩ := List.rdropWhile_prefix p l
  cases hx : List.rdropWhile p l with
  | nil => rw [hx] at h; simp at h
  | cons y ys =>
    rw [hx] at h ht
    simp only [List.head?_cons, Option.some.injEq] at h
    rw [← ht, List.cons_append, List.head?_cons, h]

/-- The last element surviving `rdropWhile` does not satisfy the predicate. -/
theorem rdropWhile_getLast_not (p : Char → Bool) (l : List Char) (c : Char)
    (h : (List.rdropWhile p l).getLast? = some c) : p c = false := by
  have hne : List.rdropWhile p l ≠ [] := by
    intro hnil
    rw [hnil] at h
    simp at h
  have hnot := List.rdropWhile_last_not p l hne
  rw [List.getLast?_eq_getLast _ hne, Option.some.injEq] at h
  rw [h, Bool.not_eq_true] at hnot
  exact hnot

/-- Membership in the characters of `'## Insights'` is membership in its
set of distinct characters. -/
theorem mem_insights_iff (c : Char) :
    ("## Insights".data.contains c = true) ↔ c ∈ insightsCharSet := by
  show (List.elem c ['#', '#', ' ', 'I', 'n', 's', 'i', 'g', 'h', 't', 's'] = true) ↔ _
  rw [List.elem_iff]
  simp only [insightsCharSet, List.mem_cons, List.not_mem_nil, or_false]
  tauto

/-- C10: when the report body starts with `'## Insights'`, the cleanup in
`finalize_report` strips from BOTH ends every character of the set
`{'#', ' ', 'I', 'n', 's', 'i', 'g', 'h', 't'}` — a character-set strip,
not removal of the literal heading: the original body is the stripped
result surrounded by runs of set characters, and the stripped result
neither starts nor ends with a set character. -/
theorem cleanInsights_strips_charset (content : String)
    (h : pyStartsWith content "## Insights" = true) :
    ∃ pre suf : List Char,
      content.data = pre ++ (cleanInsights content).data ++ suf ∧
      (∀ c ∈ pre, c ∈ insightsCharSet) ∧
      (∀ c ∈ suf, c ∈ insightsCharSet) ∧
      (∀ c, (cleanInsights content).data.head? = some c →
        c ∉ insightsCharSet) ∧
      (∀ c, (cleanInsights content).data.getLast? = some c →
        c ∉ insightsCharSet) := by
  have hres : (cleanInsights content).data =
      List.rdropWhile (fun c => "## Insights".data.contains c)
        (content.data.dropWhile (fun c => "## Insights".data.contains c)) := by
    unfold cleanInsights
    rw [if_pos h]
    rfl
  refine ⟨content.data.takeWhile (fun c => "## Insights".data.contains c),
    List.rtakeWhile (fun c => "## Insights".data.contains c)
      (content.data.dropWhile (fun c => "## Insights".data.contains c)),
    ?_, ?_, ?_, ?_, ?_⟩
  · rw [hres, List.append_assoc, rdropWhile_append_rtakeWhile,
      List.takeWhile_append_dropWhile]
  · intro c hc
    exact (mem_insights_iff c).mp (List.mem_takeWhile_imp hc)
  · intro c hc
    exact (mem_insights_iff c).mp (List.mem_rtakeWhile_imp hc)
  · intro c hc hmem
    rw [hres] at hc
    have h1 := rdropWhile_head? _ _ c hc
    have h2 := dropWhile_head_not _ _ c h1
    simp [(mem_insights_iff c).mpr hmem] at h2
    simp only [insightsCharSet, List.mem_cons, List.not_mem_nil, or_false] at hmem
    tauto
  · intro c hc hmem
    rw [hres] at hc
    have h2 := rdropWhile_getLast_not _ _ c hc
    simp [(mem_insights_iff c).mpr hmem] at h2
    simp only [insightsCharSet, List.mem_cons, List.not_mem_nil, or_false] at hmem
    tauto

/-- Witness for C10: the body `"## Insights Important note"` loses not only
the heading but also the leading `" I"` of `"Important"`, leaving
`"mportant note"`; the characterization theorem applies to it. -/
theorem cleanInsights_strips_charset_witness :
    pyStartsWith "## Insights Important note" "## Insights" = true ∧
    cleanInsights "## Insights Important note" = "mportant note" ∧
    ∃ pre suf : List Char,
      ("## Insights Important note" : String).data =
        pre ++ (cleanInsights "## Insights Important note").data ++ suf ∧
      (∀ c ∈ pre, c ∈ insightsCharSet) ∧
      (∀ c ∈ suf, c ∈ insightsCharSet) ∧
      (∀ c, (cleanInsights "## Insights Important note").data.head? = some c →
        c ∉ insightsCharSet) ∧
      (∀ c, (cleanInsights "## Insights Important note").data.getLast? = some c →
        c ∉ insightsCharSet) :=
  ⟨by decide, by decide, cleanInsights_strips_charset "## Insights Important note" (by decide)⟩

/-- The test `listStartsWith` characterizes list decomposition. -/
theorem listStartsWith_iff (a b : List Char) :
    listStartsWith a b = true ↔ ∃ t, b = a ++ t := by
  induction a generalizing b with
  | nil =>
    simp only [listStartsWith, List.nil_append, true_iff]
    exact ⟨b, rfl⟩
  | cons x xs ih =>
    cases b with
    | nil =>
      simp only [listStartsWith]
      constructor
      · intro hf
        exact absurd hf (by simp)
      · rintro ⟨t, ht⟩
        exact List.noConfusion ht
    | cons y ys =>
      simp only [listStartsWith, Bool.and_eq_true, beq_iff_eq, ih]
      constructor
      · rintro ⟨hxy, t, ht⟩
        exact ⟨t, by rw [List.cons_append, ← hxy, ← ht]⟩
      · rintro ⟨t, ht⟩
        rw [List.cons_append] at ht
        injection ht with h1 h2
        exact ⟨h1.symm, t, h2⟩

/-- The split scan never returns an empty list of parts. -/
theorem pySplitAux_ne_nil (sep : List Char) (fuel : Nat) (l : List Char) :
    pySplitAux sep fuel l ≠ [] := by
  cases fuel with
  | zero => cases l <;> simp [pySplitAux]
  | succ n =>
    cases l with
    | nil => simp [pySplitAux]
    | cons c rest =>
      simp only [pySplitAux]
      split
      · simp
      · split <;> simp

/-- The split scan returns one more part than the number of separator
occurrences it finds. -/
theorem pySplitAux_length (sep : List Char) (fuel : Nat) (l : List Char) :
    (pySplitAux sep fuel l).length = pyCountAux sep fuel l + 1 := by
  induction fuel generalizing l with
  | zero => cases l <;> simp [pySplitAux, pyCountAux]
  | succ n ih =>
    cases l with
    | nil => simp [pySplitAux, pyCountAux]
    | cons c rest =>
      simp only [pySplitAux, pyCountAux]
      split
      · simp only [List.length_cons, ih]
      · rcases hrec : pySplitAux sep n rest with _ | ⟨h0, t0⟩
        · exact absurd hrec (pySplitAux_ne_nil sep n rest)
        · have hl := ih rest
          rw [hrec] at hl
          show ((c :: h0) :: t0).length = pyCountAux sep n rest + 1
          simp only [List.length_cons] at hl ⊢
          omega

/-- Prepending a character to the first part commutes with joining. -/
theorem joinWithSep_cons_cons (sep : List Char) (c : Char) (h : List Char)
    (t : List (List Char)) :
    joinWithSep sep ((c :: h) :: t) = c :: joinWithSep sep (h :: t) := by
  cases t <;> simp [joinWithSep]

/-- Joining the parts of the split scan with the separator rebuilds the
scanned list. -/
theorem pySplitAux_join (sep : List Char) (fuel : Nat) (l : List Char) :
    joinWithSep sep (pySplitAux sep fuel l) = l := by
  induction fuel generalizing l with
  | zero => cases l <;> simp [pySplitAux, joinWithSep]
  | succ n ih =>
    cases l with
    | nil => simp [pySplitAux, joinWithSep]
    | cons c rest =>
      simp only [pySplitAux]
      split
      · next hpre =>
        obtain ⟨t, ht⟩ := (listStartsWith_iff sep (c :: rest)).mp hpre
        have hj := ih ((c :: rest).drop sep.length)
        rcases hrec : pySplitAux sep n ((c :: rest).drop sep.length)
          with _ | ⟨h0, t0⟩
        · exact absurd hrec (pySplitAux_ne_nil _ _ _)
        · rw [hrec] at hj
          show [] ++ sep ++ joinWithSep sep (h0 :: t0) = c :: rest
          rw [List.nil_append, hj, ht, List.drop_left]
      · rcases hrec : pySplitAux sep n rest with _ | ⟨h0, t0⟩
        · exact absurd hrec (pySplitAux_ne_nil _ _ _)
        · have hj := ih rest
          rw [hrec] at hj
          show joinWithSep sep ((c :: h0) :: t0) = c :: rest
          rw [joinWithSep_cons_cons, hj]

/-- When the cleaned body splits into exactly two parts at the sources
delimiter, `finalize_report` rebuilds the report around the first part and
appends the second as the sources block. -/
theorem finalize_report_of_split_two (introduction content conclusion x y : String)
    (hcont : pyContains (cleanInsights content) "## Sources" = true)
    (hsplit : pySplit (cleanInsights content) "\n## Sources\n" = [x, y]) :
    ResearchAgent.finalize_report introduction content conclusion =
      introduction ++ "\n\n---\n\n" ++ x ++ "\n\n---\n\n" ++ conclusion
        ++ "\n\n## Sources\n" ++ y := by
  unfold ResearchAgent.finalize_report
  simp only [hcont, if_true, hsplit]

/-- When the cleaned body does not split into exactly two parts at the
sources delimiter, `finalize_report` appends no sources block. -/
theorem finalize_report_of_split_ne_two (introduction content conclusion : String)
    (h2 : ∀ x y, pySplit (cleanInsights content) "\n## Sources\n" ≠ [x, y]) :
    ResearchAgent.finalize_report introduction content conclusion =
      introduction ++ "\n\n---\n\n" ++ cleanInsights content
        ++ "\n\n---\n\n" ++ conclusion := by
  unfold ResearchAgent.finalize_report
  cases hcont : pyContains (cleanInsights content) "## Sources" with
  | false => simp only [hcont, Bool.false_eq_true, if_false]
  | true =>
    rcases hsp : pySplit (cleanInsights content) "\n## Sources\n"
      with _ | ⟨x, _ | ⟨y, _ | ⟨z, zs⟩⟩⟩
    · simp only [hcont, if_true, hsp]
    · simp only [hcont, if_true, hsp]
    · exact absurd hsp (h2 x y)
    · simp only [hcont, if_true, hsp]

/-- C5: `finalize_report` returns introduction, report body and conclusion
separated by `"\n\n---\n\n"`; when the (cleaned) body contains the delimiter
`"\n## Sources\n"` exactly once — occurrences counted by Python's
left-to-right non-overlapping scan, as `str.split` finds them — the text
after the delimiter is split off the body and appended as
`"\n\n## Sources\n"` plus that text, and otherwise no sources block is
appended. -/
theorem finalize_report_structure (introduction content conclusion : String) :
    (pyCount (cleanInsights content) "\n## Sources\n" = 1 →
      ∃ pre post : String,
        cleanInsights content = pre ++ "\n## Sources\n" ++ post ∧
        ResearchAgent.finalize_report introduction content conclusion =
          introduction ++ "\n\n---\n\n" ++ pre ++ "\n\n---\n\n" ++ conclusion
            ++ "\n\n## Sources\n" ++ post) ∧
    (pyCount (cleanInsights content) "\n## Sources\n" ≠ 1 →
      ResearchAgent.finalize_report introduction content conclusion =
        introduction ++ "\n\n---\n\n" ++ cleanInsights content
          ++ "\n\n---\n\n" ++ conclusion) := by
  constructor
  · intro h1
    have hlen2 : (pySplitAux "\n## Sources\n".data
        (cleanInsights content).data.length (cleanInsights content).data).length
          = 2 := by
      rw [pySplitAux_length]
      unfold pyCount at h1
      omega
    rcases hsp : pySplitAux "\n## Sources\n".data
        (cleanInsights content).data.length (cleanInsights content).data
      with _ | ⟨x, _ | ⟨y, _ | ⟨z, zs⟩⟩⟩
    · exact absurd hsp (pySplitAux_ne_nil _ _ _)
    · rw [hsp] at hlen2
      simp at hlen2
    · have hjoin := pySplitAux_join "\n## Sources\n".data
        (cleanInsights content).data.length (cleanInsights content).data
      rw [hsp] at hjoin
      have hxy : x ++ "\n## Sources\n".data ++ y = (cleanInsights content).data := by
        simpa [joinWithSep] using hjoin
      have hsplit : pySplit (cleanInsights content) "\n## Sources\n" =
          [String.mk x, String.mk y] := by
        unfold pySplit
        rw [hsp]
        rfl
      have hcont : pyContains (cleanInsights content) "## Sources" = true := by
        unfold pyContains
        have hd : ("\n## Sources\n" : String).data =
            ['\n'] ++ "## Sources".data ++ ['\n'] := rfl
        have hshape : (cleanInsights content).data =
            (x ++ ['\n']) ++ "## Sources".data ++ ('\n' :: y) := by
          rw [← hxy, hd]
          simp
        rw [hshape]
        exact containsSub_of_append _ _ _
      refine ⟨String.mk x, String.mk y, ?_, ?_⟩
      · apply String.ext
        rw [String.data_append, String.data_append]
        exact hxy.symm
      · exact finalize_report_of_split_two introduction content conclusion
          (String.mk x) (String.mk y) hcont hsplit
    · rw [hsp] at hlen2
      simp at hlen2
  · intro h1
    apply finalize_report_of_split_ne_two
    intro x y hxy
    have hlen : (pySplitAux "\n## Sources\n".data
        (cleanInsights content).data.length (cleanInsights content).data).length
          = 2 := by
      have hm : (pySplit (cleanInsights content) "\n## Sources\n").length = 2 := by
        rw [hxy]
        rfl
      unfold pySplit at hm
      simpa using hm
    rw [pySplitAux_length] at hlen
    unfold pyCount at h1
    omega

/-- Witness for C5: one concrete body with exactly one sources delimiter
gets its tail appended as the sources block; one without the delimiter is
passed through between introduction and conclusion. -/
theorem finalize_report_structure_witness :
    (∃ pre post : String,
      cleanInsights "Body\n## Sources\n[1] a" = pre ++ "\n## Sources\n" ++ post ∧
      ResearchAgent.finalize_report "I" "Body\n## Sources\n[1] a" "C" =
        "I" ++ "\n\n---\n\n" ++ pre ++ "\n\n---\n\n" ++ "C"
          ++ "\n\n## Sources\n" ++ post) ∧
    ResearchAgent.finalize_report "I" "Just a body" "C" =
      "I" ++ "\n\n---\n\n" ++ cleanInsights "Just a body" ++ "\n\n---\n\n" ++ "C" :=
  ⟨(finalize_report_structure "I" "Body\n## Sources\n[1] a" "C").1 (by decide),
   (finalize_report_structure "I" "Just a body" "C").2 (by decide)⟩
